import Mathlib

/-
A shallow embedding of `redisstore.go` (package redisstore): a session store
backed by a Redis key-value backend. Keys are strings, values are opaque byte
payloads, and every key may carry an absolute expiry timestamp in milliseconds
since the Unix epoch, enforced by the backend. The store-level operations
Find, Commit, Delete and All are translated command by command; the go-redis
reply model (the `redis.Nil` sentinel for "no such key" versus a genuine
failure) is made explicit.
-/

namespace RedisStore

/-- An opaque byte payload (Go `[]byte`). -/
abbrev Bytes := List Nat

/-- A Go string (key, token or key prefix), as its character sequence. -/
abbrev Str := List Char

/-- An error value a go-redis command can report: `nilReply` is the
`redis.Nil` sentinel meaning "no such key"; `other n` is a genuine backend
failure (timeout, connection error, protocol error), identified opaquely. -/
inductive RErr where
  | nilReply : RErr
  | other : Nat → RErr
deriving DecidableEq, Repr

/-- One stored backend entry: its value and an optional absolute expiry in
epoch milliseconds. `none` means the key has no TTL and persists. -/
structure Entry where
  val : Bytes
  expAt : Option Int
deriving DecidableEq, Repr

/-- The backend key space: an association list from key to entry. Entries
whose expiry has passed may still be physically present; every read path
treats them as absent (Redis deletes expired keys lazily). -/
abbrev RState := List (Str × Entry)

/-- First binding of key `q`, if any. -/
def lookupKey : RState → Str → Option Entry
  | [], _ => none
  | (k, e) :: rest, q => if k = q then some e else lookupKey rest q

/-- An entry is live at time `now` (ms) unless its expiry has been reached:
Redis treats a key whose expiry timestamp is not in the future as gone. -/
def liveEntry (now : Int) (e : Entry) : Bool :=
  match e.expAt with
  | none => true
  | some t => decide (now < t)

/-- GET k: the stored bytes when `k` is live at `now`, the `redis.Nil`
sentinel otherwise. -/
def redisGet (st : RState) (now : Int) (k : Str) : Except RErr Bytes :=
  match lookupKey st k with
  | some e => if liveEntry now e then .ok e.val else .error .nilReply
  | none => .error .nilReply

/-- SET k v with expiration 0 (as Commit issues it): store `v` at `k` with
no TTL, replacing any previous binding. -/
def setKey (st : RState) (k : Str) (e : Entry) : RState :=
  (k, e) :: st.filter (fun p => decide (p.1 ≠ k))

/-- PEXPIREAT k t: when `k` is live, set its expiry to the absolute
millisecond timestamp `t` — Redis deletes the key at once when `t` is not in
the future; when `k` is absent the command is a no-op. -/
def redisPExpireAt (st : RState) (now : Int) (k : Str) (t : Int) : RState :=
  match lookupKey st k with
  | some e =>
    if liveEntry now e then
      if t ≤ now then st.filter (fun p => decide (p.1 ≠ k))
      else setKey st k { val := e.val, expAt := some t }
    else st
  | none => st

/-- DEL k: remove the key; Redis reports only a deleted-count, never an
error, for an absent key. -/
def redisDel (st : RState) (k : Str) : RState :=
  st.filter (fun p => decide (p.1 ≠ k))

/-- KEYS pfx*: every live key that starts with `pfx`. The reply is an array,
so an empty match comes back as the empty list, never as `redis.Nil`. -/
def redisKeys (st : RState) (now : Int) (pfx : Str) : List Str :=
  (st.filter (fun p => liveEntry now p.2 && decide (pfx <+: p.1))).map Prod.fst

/-- Find's mapping from the raw GET reply to its `(b, exists, err)` result:
`redis.Nil` becomes `(nil, false, nil)`, a genuine error is propagated as
`(nil, false, err)`, and a value becomes `(b, true, nil)`. -/
def findReply (r : Except RErr Bytes) : Option Bytes × Bool × Option RErr :=
  match r with
  | .error .nilReply => (none, false, none)
  | .error e => (none, false, some e)
  | .ok b => (some b, true, none)

/-- Find against an arbitrary backend `fetch` oracle giving the GET reply for
each full key, as used by All's per-key re-fetch. -/
def FindWith (fetch : Str → Except RErr Bytes) (pfx tok : Str) :
    Option Bytes × Bool × Option RErr :=
  findReply (fetch (pfx ++ tok))

/-- `RedisStore.Find` over a concrete backend state at time `now`. -/
def Find (st : RState) (now : Int) (pfx tok : Str) :
    Option Bytes × Bool × Option RErr :=
  FindWith (redisGet st now) pfx tok

/-- The backend state after Commit's pipeline fully executes: SET of the
value at `pfx ++ tok` with expiration 0, then PEXPIREAT with the given
absolute expiry. -/
def commitState (st : RState) (now : Int) (pfx tok : Str) (b : Bytes)
    (expiry : Int) : RState :=
  redisPExpireAt (setKey st (pfx ++ tok) { val := b, expAt := none })
    now (pfx ++ tok) expiry

/-- Commit's two pipelined commands applied only up to the first `j`: a
go-redis pipeline is one batched request but not a transaction, so the
backend can apply the SET without the PEXPIREAT (a failure or crash between
the two commands). `j = 2` is the complete pipeline. -/
def commitPipelineUpTo (st : RState) (now : Int) (pfx tok : Str) (b : Bytes)
    (expiry : Int) : Nat → RState
  | 0 => st
  | 1 => setKey st (pfx ++ tok) { val := b, expAt := none }
  | _ + 2 => commitState st now pfx tok b expiry

/-- A sequence of Commits issued through one store with prefix `pfx`; each
element carries the wall-clock time of the call, the token, the data and the
absolute expiry. -/
def commitSeq (pfx : Str) : List (Int × Str × Bytes × Int) → RState → RState
  | [], st => st
  | (now, tok, b, e) :: rest, st => commitSeq pfx rest (commitState st now pfx tok b e)

/-- `RedisStore.Delete`: issue DEL on `pfx ++ tok` and return its error,
which the backend never raises for an absent key. -/
def deleteStore (st : RState) (pfx tok : Str) : RState × Option RErr :=
  (redisDel st (pfx ++ tok), none)

/-- Go map assignment `m[k] = v`: replace any previous binding of `k`. -/
def mapPut (m : List (Str × Bytes)) (k : Str) (v : Bytes) : List (Str × Bytes) :=
  (m.filter (fun p => decide (p.1 ≠ k))) ++ [(k, v)]

/-- All's loop over the enumerated keys: strip the prefix from each key,
re-fetch it through Find, bail out with `(nil, nil)` if Find's error is the
`redis.Nil` sentinel, bail out with `(nil, err)` on a genuine error, record
the value when it exists, and skip it otherwise. -/
def allLoop (fetch : Str → Except RErr Bytes) (pfx : Str) :
    List Str → List (Str × Bytes) → Option (List (Str × Bytes)) × Option RErr
  | [], acc => (some acc, none)
  | key :: rest, acc =>
    match FindWith fetch pfx (key.drop pfx.length) with
    | (_, _, some RErr.nilReply) => (none, none)
    | (_, _, some e) => (none, some e)
    | (d, ex, none) =>
      if ex then allLoop fetch pfx rest (mapPut acc (key.drop pfx.length) (d.getD []))
      else allLoop fetch pfx rest acc

/-- `RedisStore.All` given the KEYS reply and the per-key fetch oracle: the
`redis.Nil` branch after KEYS returns `(nil, nil)`, a genuine KEYS error is
propagated, and otherwise the loop builds the token-to-data map. -/
def AllWith (fetch : Str → Except RErr Bytes) (keysReply : Except RErr (List Str))
    (pfx : Str) : Option (List (Str × Bytes)) × Option RErr :=
  match keysReply with
  | .error RErr.nilReply => (none, none)
  | .error e => (none, some e)
  | .ok ks => allLoop fetch pfx ks []

/-- `RedisStore.All` over a concrete backend state: KEYS answers with the
array of live keys under the prefix, and each re-fetch reads the same state. -/
def All (st : RState) (now : Int) (pfx : Str) :
    Option (List (Str × Bytes)) × Option RErr :=
  AllWith (redisGet st now) (.ok (redisKeys st now pfx)) pfx

/-- A Go `time.Time`, reduced to what the code reads from it: its
nanoseconds since the Unix epoch. -/
structure GoTime where
  unixNanos : Int
deriving DecidableEq, Repr

/-- `t.UnixNano()`. -/
def unixNano (t : GoTime) : Int := t.unixNanos

/-- `int64(time.Millisecond)`: the millisecond duration in nanoseconds. -/
def millisecondDur : Int := 1000000

/-- `int64(time.Nanosecond)`: the nanosecond duration in nanoseconds. -/
def nanosecondDur : Int := 1

/-- `makeMillisecondTimestamp`: `t.UnixNano() / (int64(time.Millisecond) /
int64(time.Nanosecond))`, with Go's truncating integer division. -/
def makeMillisecondTimestamp (t : GoTime) : Int :=
  Int.tdiv (unixNano t) (Int.tdiv millisecondDur nanosecondDur)

/-- Whether a GET reply is a genuine failure, as opposed to a value or the
benign `redis.Nil` not-found sentinel. -/
def isGenuineErr : Except RErr Bytes → Bool
  | .error (.other _) => true
  | _ => false

/- Helper lemmas about the backend model. -/

/-- A binding produced by `setKey` is either the new one or came from the
original state. -/
theorem mem_setKey {st : RState} {k : Str} {e : Entry} {p : Str × Entry}
    (h : p ∈ setKey st k e) : p.1 = k ∨ p ∈ st := by
  rcases List.mem_cons.mp h with h1 | h1
  · exact Or.inl (by rw [h1])
  · exact Or.inr (List.mem_filter.mp h1).1

/-- A binding surviving `redisPExpireAt` is on the touched key or came from
the original state. -/
theorem mem_redisPExpireAt {st : RState} {now : Int} {k : Str} {t : Int}
    {p : Str × Entry} (h : p ∈ redisPExpireAt st now k t) : p.1 = k ∨ p ∈ st := by
  unfold redisPExpireAt at h
  rcases hl : lookupKey st k with _ | e <;> rw [hl] at h <;> dsimp only at h
  · exact Or.inr h
  · by_cases hv : liveEntry now e = true
    · rw [if_pos hv] at h
      by_cases ht : t ≤ now
      · rw [if_pos ht] at h
        exact Or.inr (List.mem_filter.mp h).1
      · rw [if_neg ht] at h
        exact mem_setKey h
    · rw [if_neg hv] at h
      exact Or.inr h

/-- A binding of the state after a Commit is the committed key or an old one. -/
theorem mem_commitState {st : RState} {now : Int} {pfx tok : Str} {b : Bytes}
    {e : Int} {p : Str × Entry} (h : p ∈ commitState st now pfx tok b e) :
    p.1 = pfx ++ tok ∨ p ∈ st := by
  rcases mem_redisPExpireAt h with h1 | h1
  · exact Or.inl h1
  · rcases mem_setKey h1 with h2 | h2
    · exact Or.inl h2
    · exact Or.inr h2

/-- Every key written by a sequence of Commits through a store carries that
store's prefix (given the keys already present do). -/
theorem commitSeq_keys_pfx {pfx : Str} (ops : List (Int × Str × Bytes × Int)) :
    ∀ st : RState, (∀ p ∈ st, pfx <+: p.1) →
      ∀ p ∈ commitSeq pfx ops st, pfx <+: p.1 := by
  induction ops with
  | nil => intro st hst p hp; exact hst p hp
  | cons op rest ih =>
    intro st hst p hp
    rcases op with ⟨now, tok, b, e⟩
    refine ih (commitState st now pfx tok b e) ?_ p hp
    intro q hq
    rcases mem_commitState hq with h1 | h1
    · rw [h1]; exact List.prefix_append pfx tok
    · exact hst q h1

/-- Lookup misses when no binding carries the key. -/
theorem lookupKey_eq_none {st : RState} {q : Str}
    (h : ∀ p ∈ st, p.1 ≠ q) : lookupKey st q = none := by
  induction st with
  | nil => rfl
  | cons p rest ih =>
    have hp : p.1 ≠ q := h p (List.mem_cons_self p rest)
    simp only [lookupKey, if_neg hp]
    exact ih (fun r hr => h r (List.mem_cons_of_mem p hr))

/-- Lookup after `setKey` on the same key yields the new entry. -/
theorem lookupKey_setKey_self (st : RState) (k : Str) (e : Entry) :
    lookupKey (setKey st k e) k = some e := by
  simp [setKey, lookupKey]

/-- Filtering a key out of the state makes its lookup miss. -/
theorem lookupKey_filter_ne (st : RState) (k : Str) :
    lookupKey (st.filter (fun p => decide (p.1 ≠ k))) k = none := by
  refine lookupKey_eq_none ?_
  intro p hp
  have := (List.mem_filter.mp hp).2
  simpa using this

/-- Two incomparable prefixes cannot both start the same key. -/
theorem not_prefix_of_incomparable {p1 p2 k : Str}
    (h1 : ¬ p1 <+: p2) (h2 : ¬ p2 <+: p1) (hk : p2 <+: k) : ¬ p1 <+: k := by
  intro hp
  rcases List.prefix_or_prefix_of_prefix hp hk with h | h
  · exact h1 h
  · exact h2 h

/-- Enumeration under one prefix sees nothing when every key carries an
incomparable prefix. -/
theorem redisKeys_eq_nil_of_incomparable {st : RState} {now : Int} {p1 p2 : Str}
    (h1 : ¬ p1 <+: p2) (h2 : ¬ p2 <+: p1) (hst : ∀ p ∈ st, p2 <+: p.1) :
    redisKeys st now p1 = [] := by
  unfold redisKeys
  have hf : st.filter (fun p => liveEntry now p.2 && decide (p1 <+: p.1)) = [] := by
    refine List.filter_eq_nil_iff.mpr ?_
    intro p hp
    have hnp : ¬ p1 <+: p.1 := not_prefix_of_incomparable h1 h2 (hst p hp)
    simp [hnp]
  rw [hf]
  rfl

/-- The loop of All skips a key whose re-fetch answers `redis.Nil`, without
recording it and without raising an error on its account. -/
theorem allLoop_skip_nilReply (fetch : Str → Except RErr Bytes) (pfx k : Str)
    (rest : List Str) (acc : List (Str × Bytes))
    (h : fetch (pfx ++ k.drop pfx.length) = .error .nilReply) :
    allLoop fetch pfx (k :: rest) acc = allLoop fetch pfx rest acc := by
  simp [allLoop, FindWith, findReply, h]

/-- The loop of All aborts with the first genuine re-fetch error, given all
earlier keys answered benignly. -/
theorem allLoop_abort (fetch : Str → Except RErr Bytes) (pfx : Str)
    (ks1 : List Str) (k : Str) (ks2 : List Str) (n : Nat)
    (hb : ∀ q ∈ ks1, isGenuineErr (fetch (pfx ++ q.drop pfx.length)) = false)
    (hk : fetch (pfx ++ k.drop pfx.length) = .error (.other n)) :
    ∀ acc, allLoop fetch pfx (ks1 ++ k :: ks2) acc = (none, some (.other n)) := by
  induction ks1 with
  | nil =>
    intro acc
    simp [allLoop, FindWith, findReply, hk]
  | cons q rest ih =>
    intro acc
    have hq := hb q (List.mem_cons_self q rest)
    have hrest : ∀ r ∈ rest, isGenuineErr (fetch (pfx ++ r.drop pfx.length)) = false :=
      fun r hr => hb r (List.mem_cons_of_mem q hr)
    rcases hr : fetch (pfx ++ q.drop pfx.length) with e | b
    · rcases e with _ | m
      · rw [List.cons_append, allLoop_skip_nilReply fetch pfx q _ acc hr]
        exact ih hrest acc
      · rw [hr] at hq
        simp [isGenuineErr] at hq
    · rw [List.cons_append]
      simp only [allLoop, FindWith, findReply, hr]
      exact ih hrest _

/-- The loop of All never returns through its `(nil, nil)` branch: Find never
reports the `redis.Nil` sentinel as its error value. -/
theorem allLoop_ne_nil_nil (fetch : Str → Except RErr Bytes) (pfx : Str)
    (ks : List Str) : ∀ acc, allLoop fetch pfx ks acc ≠ (none, none) := by
  induction ks with
  | nil =>
    intro acc h
    simp [allLoop] at h
  | cons k rest ih =>
    intro acc
    rcases hr : fetch (pfx ++ k.drop pfx.length) with e | b
    · rcases e with _ | m
      · rw [allLoop_skip_nilReply fetch pfx k rest acc hr]
        exact ih acc
      · simp [allLoop, FindWith, findReply, hr]
    · simp only [allLoop, FindWith, findReply, hr]
      exact ih _

/-- C1: Commit issues its SET and its PEXPIREAT as a go-redis pipeline — one
batched request, but not a transaction. When only the first of the two
commands takes effect, the value is stored with no expiry at all, and a
subsequent Find reads it both immediately and far beyond the intended 5 ms
expiry: the claimed both-or-neither guarantee does not hold. -/
theorem commit_pipeline_not_atomic :
    Find (commitPipelineUpTo [] 0 ['p'] ['t'] [7] 5 1) 0 ['p'] ['t']
      = (some [7], true, none) ∧
    lookupKey (commitPipelineUpTo [] 0 ['p'] ['t'] [7] 5 1) (['p'] ++ ['t'])
      = some { val := [7], expAt := none } ∧
    Find (commitPipelineUpTo [] 0 ['p'] ['t'] [7] 5 1) 1000000 ['p'] ['t']
      = (some [7], true, none) := by
  decide

/-- C2 counterexample: committing with the zero expiry timestamp does not
yield a never-expiring record — PEXPIREAT with a non-future timestamp removes
the key at once, so the immediate Find reports not-found, not the payload. -/
theorem commit_zero_expiry_removes_at_once :
    Find (commitState [] 0 ['p'] ['t'] [7] 0) 0 ['p'] ['t'] = (none, false, none) := by
  decide

/-- C2 (amended): Commit has no distinct no-expiry value: it applies
PEXPIREAT with the given timestamp unconditionally, so committing with any
timestamp not in the future of the call — in particular the zero/absent
timestamp — leaves the key absent, and a subsequent Find at any time returns
no data, exists = false and no error. -/
theorem commit_nonfuture_expiry_removes_record (st : RState) (now now2 : Int)
    (pfx tok : Str) (b : Bytes) (e : Int) (h : e ≤ now) :
    Find (commitState st now pfx tok b e) now2 pfx tok = (none, false, none) := by
  unfold Find FindWith commitState redisPExpireAt redisGet
  rw [lookupKey_setKey_self]
  dsimp only
  rw [if_pos (by rfl), if_pos h, lookupKey_filter_ne]
  rfl

/-- C2 witness for the amended statement. -/
theorem commit_nonfuture_expiry_removes_record_witness :
    Find (commitState [] 5 ['p'] ['t'] [7] 3) 9 ['p'] ['t'] = (none, false, none) :=
  commit_nonfuture_expiry_removes_record [] 5 9 ['p'] ['t'] [7] 3 (by decide)

/-- C3 counterexample: the prefixes "a" and "ab" are different, yet after the
store with prefix "a" commits tokens "bx" and "x", the store with prefix "ab"
finds token "x" — one of those tokens — present, and its All returns a
mapping exposing the first store's record stored under key "abx". -/
theorem prefix_overlap_leaks :
    (['a'] : Str) ≠ ['a', 'b'] ∧
    (Find (commitSeq ['a'] [(0, ['b', 'x'], [1], 10), (0, ['x'], [2], 10)] [])
      0 ['a', 'b'] ['x']).2.1 = true ∧
    (All (commitSeq ['a'] [(0, ['b', 'x'], [1], 10), (0, ['x'], [2], 10)] [])
      0 ['a', 'b']).1 = some [(['x'], [1])] := by
  decide

/-- C3 (amended): prefix isolation holds whenever neither prefix is a prefix
of the other: after any sequence of commits through the store with prefix
`p2` on an initially empty backend, the store with prefix `p1` finds no token
and its All returns the empty mapping with no error. -/
theorem prefix_isolation_incomparable (p1 p2 : Str)
    (h1 : ¬ p1 <+: p2) (h2 : ¬ p2 <+: p1)
    (ops : List (Int × Str × Bytes × Int)) (now : Int) (tok : Str) :
    Find (commitSeq p2 ops []) now p1 tok = (none, false, none) ∧
    All (commitSeq p2 ops []) now p1 = (some [], none) := by
  have hkeys : ∀ p ∈ commitSeq p2 ops [], p2 <+: p.1 :=
    commitSeq_keys_pfx ops [] (by intro p hp; cases hp)
  constructor
  · have hnone : lookupKey (commitSeq p2 ops []) (p1 ++ tok) = none := by
      refine lookupKey_eq_none ?_
      intro p hp he
      have hpk : p2 <+: p1 ++ tok := he ▸ hkeys p hp
      exact not_prefix_of_incomparable h1 h2 hpk (List.prefix_append p1 tok)
    simp [Find, FindWith, redisGet, findReply, hnone]
  · simp [All, AllWith, redisKeys_eq_nil_of_incomparable h1 h2 hkeys, allLoop]

/-- C3 witness for the amended statement. -/
theorem prefix_isolation_incomparable_witness :
    Find (commitSeq ['b'] [(0, ['t'], [1], 10)] []) 0 ['a'] ['t']
      = (none, false, none) ∧
    All (commitSeq ['b'] [(0, ['t'], [1], 10)] []) 0 ['a'] = (some [], none) :=
  prefix_isolation_incomparable ['a'] ['b'] (by decide) (by decide)
    [(0, ['t'], [1], 10)] 0 ['t']

/-- C4: round-trip — a Commit of payload `b` with an expiry in the future of
the commit, followed by a Find before that expiry elapses, returns exactly
the payload, exists = true and no error. -/
theorem commit_find_roundtrip (st : RState) (now1 now2 : Int) (pfx tok : Str)
    (b : Bytes) (e : Int) (h1 : now1 < e) (h2 : now2 < e) :
    Find (commitState st now1 pfx tok b e) now2 pfx tok = (some b, true, none) := by
  have hne : ¬ e ≤ now1 := not_le.mpr h1
  have hlive : liveEntry now2 { val := b, expAt := some e } = true := by
    simp [liveEntry, h2]
  unfold Find FindWith commitState redisPExpireAt redisGet
  rw [lookupKey_setKey_self]
  dsimp only
  rw [if_pos (by rfl), if_neg hne, lookupKey_setKey_self]
  dsimp only
  rw [if_pos hlive]
  rfl

/-- C4 witness. -/
theorem commit_find_roundtrip_witness :
    Find (commitState [] 0 ['p'] ['t'] [7] 5) 3 ['p'] ['t'] = (some [7], true, none) :=
  commit_find_roundtrip [] 0 3 ['p'] ['t'] [7] 5 (by decide) (by decide)

/-- C5: Find maps an absent or backend-expired key to no data, exists = false
and a nil error — never an error — and it propagates a genuine backend
failure as no data, exists = false and that very error. -/
theorem find_not_found_vs_failure (st : RState) (now : Int) (pfx tok : Str)
    (fetch : Str → Except RErr Bytes) (n : Nat)
    (habs : lookupKey st (pfx ++ tok) = none ∨
      ∃ e, lookupKey st (pfx ++ tok) = some e ∧ liveEntry now e = false)
    (hf : fetch (pfx ++ tok) = .error (.other n)) :
    Find st now pfx tok = (none, false, none) ∧
    FindWith fetch pfx tok = (none, false, some (.other n)) := by
  constructor
  · rcases habs with h | ⟨e, he, hl⟩
    · simp [Find, FindWith, redisGet, findReply, h]
    · simp [Find, FindWith, redisGet, findReply, he, hl]
  · simp [FindWith, findReply, hf]

/-- C5 witness. -/
theorem find_not_found_vs_failure_witness :
    Find [] 0 ['p'] ['t'] = (none, false, none) ∧
    FindWith (fun _ => Except.error (RErr.other 3)) ['p'] ['t']
      = (none, false, some (RErr.other 3)) :=
  find_not_found_vs_failure [] 0 ['p'] ['t'] (fun _ => Except.error (RErr.other 3)) 3
    (Or.inl rfl) rfl

/-- C6: when enumeration succeeds but the re-fetch of some enumerated key
fails with a genuine (non-not-found) error, all earlier re-fetches being
benign, All returns that error and no mapping at all; a key whose re-fetch
reports not-found is skipped without contributing an error. -/
theorem all_aborts_on_genuine_refetch_error (fetch : Str → Except RErr Bytes)
    (pfx : Str) (ks1 ks2 : List Str) (k : Str) (n : Nat)
    (hb : ∀ q ∈ ks1, isGenuineErr (fetch (pfx ++ q.drop pfx.length)) = false)
    (hk : fetch (pfx ++ k.drop pfx.length) = .error (.other n)) :
    AllWith fetch (.ok (ks1 ++ k :: ks2)) pfx = (none, some (.other n)) ∧
    ∀ q rest acc, fetch (pfx ++ q.drop pfx.length) = .error .nilReply →
      allLoop fetch pfx (q :: rest) acc = allLoop fetch pfx rest acc :=
  ⟨allLoop_abort fetch pfx ks1 k ks2 n hb hk [],
   fun q rest acc hq => allLoop_skip_nilReply fetch pfx q rest acc hq⟩

/-- C6 witness. -/
theorem all_aborts_on_genuine_refetch_error_witness :
    AllWith (fun _ => Except.error (RErr.other 7)) (.ok [['k']]) ['p']
      = (none, some (RErr.other 7)) :=
  (all_aborts_on_genuine_refetch_error (fun _ => Except.error (RErr.other 7)) ['p']
    [] [] ['k'] 7 (fun q hq => absurd hq (List.not_mem_nil q)) rfl).1

/-- C7: Delete never errors absent a backend communication failure: DEL of an
absent key reports only a zero deleted-count, so Delete returns a nil error;
after one Delete the key is gone, and the second Delete returns a nil error
as well. -/
theorem delete_idempotent (st : RState) (pfx tok : Str) :
    (deleteStore st pfx tok).2 = none ∧
    (deleteStore (deleteStore st pfx tok).1 pfx tok).2 = none ∧
    lookupKey (deleteStore st pfx tok).1 (pfx ++ tok) = none :=
  ⟨rfl, rfl, lookupKey_filter_ne st (pfx ++ tok)⟩

/-- C8: makeMillisecondTimestamp is a pure function of its argument: it
returns the nanoseconds since the Unix epoch divided, with Go's truncating
integer division, by one million. -/
theorem makeMillisecondTimestamp_eq_tdiv_million (t : GoTime) :
    makeMillisecondTimestamp t = Int.tdiv (unixNano t) 1000000 := rfl

/-- C9: every key enumerated under the pattern pfx* starts with pfx, so the
Go slice key[len(pfx):] is within bounds (the key is at least as long as the
prefix) and re-prefixing the recovered token gives back the enumerated key. -/
theorem enumerated_key_strip_safe (st : RState) (now : Int) (pfx k : Str)
    (h : k ∈ redisKeys st now pfx) :
    pfx <+: k ∧ pfx.length ≤ k.length ∧ pfx ++ k.drop pfx.length = k := by
  have hp : pfx <+: k := by
    unfold redisKeys at h
    rcases List.mem_map.mp h with ⟨p, hpmem, hpk⟩
    have hf := (List.mem_filter.mp hpmem).2
    rw [Bool.and_eq_true] at hf
    have hd := of_decide_eq_true hf.2
    rwa [hpk] at hd
  refine ⟨hp, hp.length_le, ?_⟩
  obtain ⟨t, ht⟩ := hp
  rw [← ht, List.drop_left]

/-- C9 witness. -/
theorem enumerated_key_strip_safe_witness :
    (['p'] : Str) <+: ['p', 't'] ∧
    (['p'] : Str).length ≤ (['p', 't'] : Str).length ∧
    ['p'] ++ (['p', 't'] : Str).drop (['p'] : Str).length = ['p', 't'] :=
  enumerated_key_strip_safe [(['p', 't'], { val := [1], expAt := none })] 0
    ['p'] ['p', 't'] (by decide)

/-- C10: with nothing stored under the prefix and enumeration succeeding, All
returns the empty (non-nil) mapping and a nil error; moreover the two
branches returning (nil, nil) on the not-found sentinel are dead: the loop
never returns (nil, nil) under any fetch oracle — Find never reports the
sentinel as its error — and All over a backend state never returns
(nil, nil), since KEYS answers with an array. -/
theorem all_empty_mapping_and_dead_branches (st : RState) (now : Int) (pfx : Str)
    (fetch : Str → Except RErr Bytes) (ks : List Str) (acc : List (Str × Bytes))
    (h : redisKeys st now pfx = []) :
    All st now pfx = (some [], none) ∧
    allLoop fetch pfx ks acc ≠ (none, none) ∧
    (∀ st2 : RState, ∀ now2 : Int, ∀ pfx2 : Str, All st2 now2 pfx2 ≠ (none, none)) := by
  refine ⟨?_, allLoop_ne_nil_nil fetch pfx ks acc, ?_⟩
  · simp [All, AllWith, h, allLoop]
  · intro st2 now2 pfx2
    exact allLoop_ne_nil_nil (redisGet st2 now2) pfx2 (redisKeys st2 now2 pfx2) []

/-- C10 witness. -/
theorem all_empty_mapping_and_dead_branches_witness :
    All [] 0 ['p'] = (some [], none) ∧
    allLoop (fun _ => Except.ok []) ['p'] [] [] ≠ (none, none) ∧
    (∀ st2 : RState, ∀ now2 : Int, ∀ pfx2 : Str, All st2 now2 pfx2 ≠ (none, none)) :=
  all_empty_mapping_and_dead_branches [] 0 ['p'] (fun _ => Except.ok []) [] [] rfl

end RedisStore
